import Mathlib

/-!
Verification of the Nidhogg driver core (ProcessUtils.hpp, ModuleUtils.hpp).

The C++ sources are shallowly embedded: the protected-process registry is a
list of ULONG slots plus a count, kernel objects are abstracted to numeric
identifiers, and the side-effecting kernel primitives (object dereference,
cross-process memory writes, pool allocation, address-space attach) are
recorded as explicit event traces so that resource-balance properties can be
stated and checked.
-/

namespace Nidhogg

/-! ## NTSTATUS and access-mask constants (Windows DDK values) -/

def STATUS_SUCCESS : Nat := 0

def STATUS_UNSUCCESSFUL : Nat := 0xC0000001

/-- `(ULONG)STATUS_UNSUCCESSFUL`: the 32-bit sentinel stored by
`GetActiveProcessLinksOffset` before the version query succeeds. -/
def STATUS_UNSUCCESSFUL_U32 : Nat := 0xC0000001

/-- `(UINT64)STATUS_UNSUCCESSFUL`: NTSTATUS is a signed 32-bit `LONG`, so the
cast to `UINT64` in `GetTokenOffset` sign-extends `0xC0000001`. -/
def STATUS_UNSUCCESSFUL_U64 : Nat := 0xFFFFFFFFC0000001

/-- Source constant `#define SYSTEM_PROCESS_PID 4` (ProcessUtils.hpp). -/
def SYSTEM_PROCESS_PID : Nat := 4

/-- Source constant `#define PROCESS_TERMINATE 1` (ProcessUtils.hpp). -/
def PROCESS_TERMINATE : Nat := 1

/-- Source constant `#define PROCESS_CREATE_THREAD 0x2` (ProcessUtils.hpp). -/
def PROCESS_CREATE_THREAD : Nat := 2

/-- Source constant `#define PROCESS_VM_READ 0x10` (ProcessUtils.hpp). -/
def PROCESS_VM_READ : Nat := 0x10

/-- Source constant `#define PROCESS_VM_OPERATION 8` (ProcessUtils.hpp). -/
def PROCESS_VM_OPERATION : Nat := 8

/-- Windows SDK access bit for duplicate-handle; used by `OnPreOpenProcess`
but defined outside this repository (standard value `0x0040`). -/
def PROCESS_DUP_HANDLE : Nat := 0x40

/-! ## Protected process registry

`pGlobals.Processes` holds `ULONG Pids[MAX_PIDS]` and `int PidsCount`.
The array is embedded as a `List Nat` whose length is the capacity
`MAX_PIDS` (the numeric value of `MAX_PIDS` lives in the driver's `pch.h`,
which is not part of the two source files; the capacity is therefore kept
as the length of the slot list, per the spec's "fixed maximum capacity").
An empty slot holds `0`. -/

structure ProcessList where
  Pids : List Nat
  PidsCount : Nat
deriving DecidableEq

/-- `bool FindProcess(ULONG pid)`: scan `Pids[i]` for `i < PidsCount`. -/
def FindProcess (g : ProcessList) (pid : Nat) : Bool :=
  (g.Pids.take g.PidsCount).contains pid

/-- `bool AddProcess(ULONG pid)`: write `pid` into the first slot holding
`0` (scanning all `MAX_PIDS` slots), increment `PidsCount`; fail if no
slot holds `0`. -/
def AddProcess (g : ProcessList) (pid : Nat) : ProcessList × Bool :=
  match g.Pids.findIdx? (· = 0) with
  | some i => ({ Pids := g.Pids.set i pid, PidsCount := g.PidsCount + 1 }, true)
  | none => (g, false)

/-- `bool RemoveProcess(ULONG pid)`: scan `Pids[i]` for `i < PidsCount`;
zero the first slot holding `pid` and decrement `PidsCount`; fail if the
scan finds no match. -/
def RemoveProcess (g : ProcessList) (pid : Nat) : ProcessList × Bool :=
  match (g.Pids.take g.PidsCount).findIdx? (· = pid) with
  | some i => ({ Pids := g.Pids.set i 0, PidsCount := g.PidsCount - 1 }, true)
  | none => (g, false)

/-- The registry at driver load: every slot empty, count zero. -/
def initRegistry (cap : Nat) : ProcessList :=
  { Pids := List.replicate cap 0, PidsCount := 0 }

/-- Run a sequence of `AddProcess` calls, discarding the results. -/
def runAdds (g : ProcessList) : List Nat → ProcessList
  | [] => g
  | p :: ps => runAdds (AddProcess g p).1 ps

/-- Run a sequence of `AddProcess` calls and report whether all succeeded. -/
def runAddsAll (g : ProcessList) : List Nat → ProcessList × Bool
  | [] => (g, true)
  | p :: ps =>
    let r := AddProcess g p
    let rest := runAddsAll r.1 ps
    (rest.1, r.2 && rest.2)

/-- The count never undercounts the occupied (nonzero) slots.  This holds in
every state reachable by `AddProcess`/`RemoveProcess` calls on nonzero pids
(`0` is the empty-slot sentinel). -/
abbrev CountConsistent (g : ProcessList) : Prop :=
  g.Pids.countP (fun x => x != 0) ≤ g.PidsCount

/-! ### Registry lemmas -/

theorem findProcess_iff (g : ProcessList) (pid : Nat) :
    FindProcess g pid = true ↔ pid ∈ g.Pids.take g.PidsCount := by
  simp [FindProcess, List.contains]

theorem countP_set (q : Nat → Bool) (l : List Nat) (j v : Nat) (h : j < l.length) :
    (l.set j v).countP q + (if q l[j] then 1 else 0)
      = l.countP q + (if q v then 1 else 0) := by
  induction l generalizing j with
  | nil => simp at h
  | cons a t ih =>
    cases j with
    | zero =>
      simp only [List.set_cons_zero, List.countP_cons, List.getElem_cons_zero]
      omega
    | succ j =>
      have hj : j < t.length := by simpa using h
      simp only [List.set_cons_succ, List.countP_cons, List.getElem_cons_succ]
      have := ih j hj
      omega

theorem findProcess_after_addProcess (g : ProcessList) (pid : Nat)
    (hg : CountConsistent g) (hadd : (AddProcess g pid).2 = true) :
    FindProcess (AddProcess g pid).1 pid = true := by
  cases hfi : g.Pids.findIdx? (· = 0) with
  | none => simp [AddProcess, hfi] at hadd
  | some j =>
    have hspec := hfi
    rw [List.findIdx?_eq_some_iff_getElem] at hspec
    obtain ⟨hlen, hj0, hprev⟩ := hspec
    have hj0' : g.Pids[j] = 0 := by simpa using hj0
    -- the first j slots are all occupied, so j ≤ countP ≤ PidsCount
    have htake : (g.Pids.take j).countP (fun x => x != 0) = j := by
      have hall : ∀ a ∈ g.Pids.take j, (fun x => x != 0) a = true := by
        intro a ha
        rw [List.mem_take_iff_getElem] at ha
        obtain ⟨i, hi, rfl⟩ := ha
        have := hprev i (by omega)
        simpa using this
      have := List.countP_eq_length.mpr hall
      rw [this, List.length_take]
      omega
    have hle : j ≤ g.PidsCount := by
      have hsplit : g.Pids.take j ++ g.Pids.drop j = g.Pids := List.take_append_drop j g.Pids
      have : (g.Pids.take j).countP (fun x => x != 0) ≤ g.Pids.countP (fun x => x != 0) := by
        conv_rhs => rw [← hsplit]
        rw [List.countP_append]
        omega
      unfold CountConsistent at hg
      omega
    simp only [AddProcess, hfi]
    rw [findProcess_iff]
    simp only
    rw [List.mem_take_iff_getElem]
    refine ⟨j, by simp [List.length_set]; omega, ?_⟩
    simp

theorem findProcess_mono_add (g : ProcessList) (pid q : Nat) (hpid : pid ≠ 0)
    (hf : FindProcess g pid = true) :
    FindProcess (AddProcess g q).1 pid = true := by
  rw [findProcess_iff] at hf
  cases hfi : g.Pids.findIdx? (· = 0) with
  | none => rw [AddProcess, hfi]; rw [findProcess_iff]; exact hf
  | some j =>
    have hspec := hfi
    rw [List.findIdx?_eq_some_iff_getElem] at hspec
    obtain ⟨hlen, hj0, -⟩ := hspec
    have hj0' : g.Pids[j] = 0 := by simpa using hj0
    rw [AddProcess, hfi]
    rw [findProcess_iff]
    simp only
    rw [List.mem_take_iff_getElem] at hf ⊢
    obtain ⟨i, hi, hival⟩ := hf
    have hne : i ≠ j := by
      intro hij
      subst hij
      exact hpid (by rw [← hival]; exact hj0')
    refine ⟨i, by simp [List.length_set]; omega, ?_⟩
    rw [List.getElem_set_ne (by omega)]
    exact hival

theorem findProcess_after_removeProcess (g : ProcessList) (pid : Nat) (hpid : pid ≠ 0)
    (hdup : g.Pids.countP (· == pid) ≤ 1) (hrem : (RemoveProcess g pid).2 = true) :
    FindProcess (RemoveProcess g pid).1 pid = false := by
  cases hfi : (g.Pids.take g.PidsCount).findIdx? (· = pid) with
  | none => simp [RemoveProcess, hfi] at hrem
  | some j =>
    have hspec := hfi
    rw [List.findIdx?_eq_some_iff_getElem] at hspec
    obtain ⟨hlen, hjv, -⟩ := hspec
    have hlen' : j < g.Pids.length := by
      rw [List.length_take] at hlen
      omega
    have hjv' : g.Pids[j] = pid := by
      have := hjv
      rw [List.getElem_take] at this
      simpa using this
    -- zeroing the unique occurrence removes pid from the array entirely
    have hcount := countP_set (· == pid) g.Pids j 0 hlen'
    rw [hjv'] at hcount
    simp only [beq_self_eq_true, if_pos] at hcount
    have h0pid : ((0 : Nat) == pid) = false := by
      simp [Ne.symm hpid]
    rw [h0pid] at hcount
    simp only [if_neg Bool.false_ne_true] at hcount
    have hzero : (g.Pids.set j 0).countP (· == pid) = 0 := by omega
    have hnot : pid ∉ g.Pids.set j 0 := by
      intro hmem
      have : (g.Pids.set j 0).countP (· == pid) ≠ 0 := by
        have := List.countP_pos_iff (p := (· == pid)) (l := g.Pids.set j 0)
        have hpos : 0 < (g.Pids.set j 0).countP (· == pid) :=
          this.mpr ⟨pid, hmem, by simp⟩
        omega
      exact this hzero
    simp only [RemoveProcess, hfi]
    rw [← Bool.not_eq_true, findProcess_iff]
    intro hmem
    exact hnot (List.mem_of_mem_take hmem)

theorem removeProcess_fail_eq (g : ProcessList) (pid : Nat)
    (h : (RemoveProcess g pid).2 = false) : (RemoveProcess g pid).1 = g := by
  cases hfi : (g.Pids.take g.PidsCount).findIdx? (· = pid) with
  | none => simp [RemoveProcess, hfi]
  | some j => simp [RemoveProcess, hfi] at h

theorem removeProcess_absent (g : ProcessList) (pid : Nat) (hab : pid ∉ g.Pids) :
    RemoveProcess g pid = (g, false) := by
  have hfi : (g.Pids.take g.PidsCount).findIdx? (· = pid) = none := by
    rw [List.findIdx?_eq_none_iff]
    intro x hx
    simp only [decide_eq_false_iff_not]
    intro hxe
    exact hab (hxe ▸ List.mem_of_mem_take hx)
  simp [RemoveProcess, hfi]

theorem countConsistent_add (g : ProcessList) (pid : Nat) (hpid : pid ≠ 0)
    (hg : CountConsistent g) : CountConsistent (AddProcess g pid).1 := by
  cases hfi : g.Pids.findIdx? (· = 0) with
  | none => simpa [AddProcess, hfi] using hg
  | some j =>
    have hspec := hfi
    rw [List.findIdx?_eq_some_iff_getElem] at hspec
    obtain ⟨hlen, hj0, -⟩ := hspec
    have hj0' : g.Pids[j] = 0 := by simpa using hj0
    have hcount := countP_set (fun x => x != 0) g.Pids j pid hlen
    rw [hj0'] at hcount
    simp only [bne_self_eq_false, if_neg Bool.false_ne_true] at hcount
    have hpidb : (pid != 0) = true := by simpa using hpid
    rw [hpidb] at hcount
    simp only [if_pos] at hcount
    unfold CountConsistent at hg ⊢
    simp only [AddProcess, hfi]
    omega

theorem countConsistent_remove (g : ProcessList) (pid : Nat) (hpid : pid ≠ 0)
    (hg : CountConsistent g) : CountConsistent (RemoveProcess g pid).1 := by
  cases hfi : (g.Pids.take g.PidsCount).findIdx? (· = pid) with
  | none => simpa [RemoveProcess, hfi] using hg
  | some j =>
    have hspec := hfi
    rw [List.findIdx?_eq_some_iff_getElem] at hspec
    obtain ⟨hlen, hjv, -⟩ := hspec
    have hlen' : j < g.Pids.length := by
      rw [List.length_take] at hlen
      omega
    have hjv' : g.Pids[j] = pid := by
      have := hjv
      rw [List.getElem_take] at this
      simpa using this
    have hcount := countP_set (fun x => x != 0) g.Pids j 0 hlen'
    rw [hjv'] at hcount
    have hpidb : (pid != 0) = true := by simpa using hpid
    rw [hpidb] at hcount
    simp only [bne_self_eq_false, if_pos, if_neg Bool.false_ne_true] at hcount
    unfold CountConsistent at hg ⊢
    simp only [RemoveProcess, hfi]
    omega

theorem addProcess_full (g : ProcessList) (pid : Nat) (h : ∀ x ∈ g.Pids, x ≠ 0) :
    AddProcess g pid = (g, false) := by
  have hfi : g.Pids.findIdx? (· = 0) = none := by
    rw [List.findIdx?_eq_none_iff]
    intro x hx
    simpa using h x hx
  simp [AddProcess, hfi]

theorem runAddsAll_fill (l front : List Nat) (c : Nat)
    (hf : ∀ p ∈ front, p ≠ 0) (hl : ∀ p ∈ l, p ≠ 0) :
    runAddsAll ⟨front ++ List.replicate l.length 0, c⟩ l
      = (⟨front ++ l, c + l.length⟩, true) := by
  induction l generalizing front c with
  | nil => simp [runAddsAll]
  | cons p ps ih =>
    have hfront : front.findIdx? (· = 0) = none := by
      rw [List.findIdx?_eq_none_iff]
      intro x hx
      simpa using hf x hx
    have hfi : (front ++ List.replicate (p :: ps).length 0).findIdx? (· = 0)
        = some front.length := by
      rw [List.findIdx?_append, hfront]
      simp [List.replicate, List.findIdx?_cons]
    have hset : (front ++ List.replicate (p :: ps).length 0).set front.length p
        = (front ++ [p]) ++ List.replicate ps.length 0 := by
      rw [List.set_append_right _ _ (Nat.le_refl _)]
      simp [List.replicate, List.append_assoc]
    have hstep : AddProcess ⟨front ++ List.replicate (p :: ps).length 0, c⟩ p
        = (⟨(front ++ [p]) ++ List.replicate ps.length 0, c + 1⟩, true) := by
      simp only [AddProcess, hfi, hset]
    have hf' : ∀ q ∈ front ++ [p], q ≠ 0 := by
      intro q hq
      rcases List.mem_append.mp hq with h1 | h1
      · exact hf q h1
      · have hqp : q = p := List.mem_singleton.mp h1
        rw [hqp]
        exact hl p (List.mem_cons_self _ _)
    have hl' : ∀ q ∈ ps, q ≠ 0 := fun q hq => hl q (List.mem_cons_of_mem _ hq)
    rw [runAddsAll, hstep]
    simp only
    rw [ih (front ++ [p]) (c + 1) hf' hl']
    simp [List.append_assoc, List.length_cons]
    omega

/-- `AddProcess` never changes the number of slots. -/
theorem addProcess_length (g : ProcessList) (pid : Nat) :
    (AddProcess g pid).1.Pids.length = g.Pids.length := by
  cases hfi : g.Pids.findIdx? (· = 0) with
  | none => simp [AddProcess, hfi]
  | some j => simp [AddProcess, hfi]

/-- For nonzero pids, the count never overcounts the occupied slots either. -/
theorem countLe_add (g : ProcessList) (pid : Nat) (hpid : pid ≠ 0)
    (h : g.PidsCount ≤ g.Pids.countP (fun x => x != 0)) :
    (AddProcess g pid).1.PidsCount ≤ (AddProcess g pid).1.Pids.countP (fun x => x != 0) := by
  cases hfi : g.Pids.findIdx? (· = 0) with
  | none => simpa [AddProcess, hfi] using h
  | some j =>
    have hspec := hfi
    rw [List.findIdx?_eq_some_iff_getElem] at hspec
    obtain ⟨hlen, hj0, -⟩ := hspec
    have hj0' : g.Pids[j] = 0 := by simpa using hj0
    have hcount := countP_set (fun x => x != 0) g.Pids j pid hlen
    rw [hj0'] at hcount
    have hpidb : (pid != 0) = true := by simpa using hpid
    rw [hpidb] at hcount
    simp only [bne_self_eq_false, if_pos, if_neg Bool.false_ne_true] at hcount
    simp only [AddProcess, hfi]
    omega

theorem runAdds_le_cap (l : List Nat) (g : ProcessList) (hl : ∀ p ∈ l, p ≠ 0)
    (h : g.PidsCount ≤ g.Pids.countP (fun x => x != 0)) :
    (runAdds g l).PidsCount ≤ g.Pids.length := by
  induction l generalizing g with
  | nil =>
    have := List.countP_le_length (p := fun x => x != 0) (l := g.Pids)
    simpa [runAdds] using Nat.le_trans h this
  | cons p ps ih =>
    have hlen := addProcess_length g p
    have hinv := countLe_add g p (hl p (List.mem_cons_self _ _)) h
    have := ih (AddProcess g p).1 (fun q hq => hl q (List.mem_cons_of_mem _ hq)) hinv
    rw [runAdds]
    omega

/-! ### Claim C1 -/

/-- **C1** (counterexample).  The claim "after `AddProcess(pid)` succeeds,
`FindProcess(pid)` returns true until a subsequent `RemoveProcess(pid)`" is
false: with capacity 4, `AddProcess 1`, `AddProcess 2` and `RemoveProcess 1`
all succeed, pid 2 is never removed, yet `FindProcess 2` returns false,
because zeroing slot 0 decrements `PidsCount` to 1 and `FindProcess` only
scans the first `PidsCount` slots while pid 2 still sits in slot 1. -/
theorem C1_counterexample :
    (AddProcess (initRegistry 4) 1).2 = true ∧
    (AddProcess (AddProcess (initRegistry 4) 1).1 2).2 = true ∧
    (RemoveProcess (AddProcess (AddProcess (initRegistry 4) 1).1 2).1 1).2 = true ∧
    FindProcess (RemoveProcess (AddProcess (AddProcess (initRegistry 4) 1).1 2).1 1).1 2
      = false ∧
    (RemoveProcess (AddProcess (AddProcess (initRegistry 4) 1).1 2).1 1).1.Pids = [0, 2, 0, 0] := by
  decide

/-- **C1** (amended).  In any state whose count dominates its number of
occupied slots (true initially and preserved by the operations on nonzero
pids): after `AddProcess(pid)` succeeds, `FindProcess(pid)` returns true and
remains true across further `AddProcess` calls; it remains true until some
`RemoveProcess` call *succeeds* — a successful `RemoveProcess` of a
*different* pid may also make `FindProcess(pid)` return false (see the
counterexample), which is the only deviation from the original claim.  After
`RemoveProcess(pid)` succeeds on a nonzero pid stored in at most one slot,
`FindProcess(pid)` returns false.  A failed `RemoveProcess` leaves the state
unchanged, and `RemoveProcess(pid)` for a pid stored in no slot (in
particular one never added) returns false and leaves the `Pids` array and
`PidsCount` unchanged. -/
theorem C1_amended :
    (∀ g pid, CountConsistent g → (AddProcess g pid).2 = true →
      FindProcess (AddProcess g pid).1 pid = true) ∧
    (∀ g pid q, pid ≠ 0 → FindProcess g pid = true →
      FindProcess (AddProcess g q).1 pid = true) ∧
    (∀ g pid, pid ≠ 0 → g.Pids.countP (· == pid) ≤ 1 → (RemoveProcess g pid).2 = true →
      FindProcess (RemoveProcess g pid).1 pid = false) ∧
    (∀ g pid, (RemoveProcess g pid).2 = false → (RemoveProcess g pid).1 = g) ∧
    (∀ g pid, pid ∉ g.Pids → RemoveProcess g pid = (g, false)) ∧
    (∀ g pid, pid ≠ 0 → CountConsistent g →
      CountConsistent (AddProcess g pid).1 ∧ CountConsistent (RemoveProcess g pid).1) ∧
    (∀ cap, CountConsistent (initRegistry cap)) :=
  ⟨findProcess_after_addProcess,
   findProcess_mono_add,
   findProcess_after_removeProcess,
   removeProcess_fail_eq,
   removeProcess_absent,
   fun g pid h1 h2 => ⟨countConsistent_add g pid h1 h2, countConsistent_remove g pid h1 h2⟩,
   fun cap => by simp [initRegistry, CountConsistent, List.countP_eq_zero]⟩

/-- Witness for `C1_amended`: every conjunct applied at concrete inputs. -/
theorem C1_amended_witness :
    FindProcess (AddProcess (initRegistry 2) 5).1 5 = true ∧
    FindProcess (AddProcess (AddProcess (initRegistry 2) 5).1 9).1 5 = true ∧
    FindProcess (RemoveProcess (AddProcess (initRegistry 2) 5).1 5).1 5 = false ∧
    (RemoveProcess (initRegistry 2) 7).1 = initRegistry 2 ∧
    RemoveProcess (initRegistry 2) 7 = (initRegistry 2, false) ∧
    (CountConsistent (AddProcess (initRegistry 2) 5).1 ∧
      CountConsistent (RemoveProcess (initRegistry 2) 5).1) ∧
    CountConsistent (initRegistry 2) :=
  ⟨C1_amended.1 (initRegistry 2) 5 (by decide) (by decide),
   C1_amended.2.1 (AddProcess (initRegistry 2) 5).1 5 9 (by decide) (by decide),
   C1_amended.2.2.1 (AddProcess (initRegistry 2) 5).1 5 (by decide) (by decide) (by decide),
   C1_amended.2.2.2.1 (initRegistry 2) 7 (by decide),
   C1_amended.2.2.2.2.1 (initRegistry 2) 7 (by decide),
   C1_amended.2.2.2.2.2.1 (initRegistry 2) 5 (by decide) (by decide),
   C1_amended.2.2.2.2.2.2 2⟩

/-! ### Claim C10 -/

/-- **C10** (counterexample).  The claim "the (capacity+1)-th `AddProcess`
returns false with the registry composition unchanged" is false when pid 0
is added: `0` is the empty-slot sentinel, so `AddProcess 0` always finds an
"empty" slot.  With capacity 2, the third `AddProcess 0` still returns true
and drives `PidsCount` to 3, beyond the capacity. -/
theorem C10_counterexample :
    (AddProcess (AddProcess (AddProcess (initRegistry 2) 0).1 0).1 0).2 = true ∧
    (AddProcess (AddProcess (AddProcess (initRegistry 2) 0).1 0).1 0).1.PidsCount = 3 := by
  decide

/-- **C10** (amended).  For nonzero pids (0 being the empty-slot sentinel)
the claim holds: whenever no empty slot exists, `AddProcess` returns false
and leaves the `Pids` array and `PidsCount` unchanged; starting from the
empty registry, `capacity` many `AddProcess` calls on nonzero pids all
succeed and fill the array, and the (capacity+1)-th returns false with the
registry composition unchanged; and no sequence of nonzero `AddProcess`
calls ever drives `PidsCount` beyond the capacity. -/
theorem C10_amended :
    (∀ g pid, (∀ x ∈ g.Pids, x ≠ 0) → AddProcess g pid = (g, false)) ∧
    (∀ (l : List Nat) (pid : Nat), (∀ p ∈ l, p ≠ 0) →
      runAddsAll (initRegistry l.length) l = (⟨l, l.length⟩, true) ∧
      AddProcess ⟨l, l.length⟩ pid = (⟨l, l.length⟩, false)) ∧
    (∀ (l : List Nat) (cap : Nat), (∀ p ∈ l, p ≠ 0) →
      (runAdds (initRegistry cap) l).PidsCount ≤ cap) := by
  refine ⟨addProcess_full, ?_, ?_⟩
  · intro l pid hl
    constructor
    · have := runAddsAll_fill l [] 0 (by simp) hl
      simpa [initRegistry] using this
    · exact addProcess_full ⟨l, l.length⟩ pid hl
  · intro l cap hl
    have := runAdds_le_cap l (initRegistry cap) hl (by simp [initRegistry])
    simpa [initRegistry] using this

/-- Witness for `C10_amended`: every conjunct applied at concrete inputs. -/
theorem C10_amended_witness :
    AddProcess ⟨[7, 8], 2⟩ 9 = (⟨[7, 8], 2⟩, false) ∧
    (runAddsAll (initRegistry 2) [3, 4] = (⟨[3, 4], 2⟩, true) ∧
      AddProcess ⟨[3, 4], 2⟩ 9 = (⟨[3, 4], 2⟩, false)) ∧
    (runAdds (initRegistry 2) [3, 4, 5]).PidsCount ≤ 2 :=
  ⟨C10_amended.1 ⟨[7, 8], 2⟩ 9 (by decide),
   C10_amended.2.1 [3, 4] 9 (by decide),
   C10_amended.2.2 [3, 4, 5] 2 (by decide)⟩

/-! ## Access filter: `OnPreOpenProcess`

The object-manager callback receives the kernel-handle flag, the target
process (from which only the pid is read, via `PsGetProcessId`), and the
requested `DesiredAccess` mask (a 32-bit `ACCESS_MASK`). -/

inductive OB_PREOP_CALLBACK_STATUS
  | OB_PREOP_SUCCESS
deriving DecidableEq

structure PreOperationInfo where
  KernelHandle : Bool
  pid : Nat
  DesiredAccess : Nat
deriving DecidableEq

/-- One `DesiredAccess &= ~mask` statement on the 32-bit `ACCESS_MASK`. -/
def clearAccess (d m : Nat) : Nat := d &&& (0xFFFFFFFF ^^^ m)

/-- The five sequential `DesiredAccess &= ~...` statements of
`OnPreOpenProcess`, in source order (lines 90-94 of ProcessUtils.hpp). -/
def filteredAccess (d : Nat) : Nat :=
  clearAccess (clearAccess (clearAccess (clearAccess (clearAccess
    d PROCESS_VM_OPERATION) PROCESS_VM_READ)
    PROCESS_CREATE_THREAD) PROCESS_DUP_HANDLE) PROCESS_TERMINATE

/-- `OB_PREOP_CALLBACK_STATUS OnPreOpenProcess(PVOID, POB_PRE_OPERATION_INFORMATION)`:
kernel handles pass through untouched; if the pid is registered, the five
access bits are cleared in sequence; the callback always returns
`OB_PREOP_SUCCESS`. -/
def OnPreOpenProcess (g : ProcessList) (info : PreOperationInfo) :
    PreOperationInfo × OB_PREOP_CALLBACK_STATUS :=
  if info.KernelHandle then (info, .OB_PREOP_SUCCESS)
  else if FindProcess g info.pid then
    ({ info with DesiredAccess := filteredAccess info.DesiredAccess }, .OB_PREOP_SUCCESS)
  else (info, .OB_PREOP_SUCCESS)

theorem testBit_clearAccess (d m i : Nat) (hm : m < 2 ^ 32) :
    (clearAccess d m).testBit i
      = (d.testBit i && (decide (i < 32) && !m.testBit i)) := by
  unfold clearAccess
  rw [Nat.testBit_land, Nat.testBit_xor]
  rw [show (0xFFFFFFFF : Nat) = 2 ^ 32 - 1 from rfl, Nat.testBit_two_pow_sub_one]
  by_cases h : i < 32
  · simp [h]
  · have hmi : m.testBit i = false :=
      Nat.testBit_eq_false_of_lt
        (lt_of_lt_of_le hm (Nat.pow_le_pow_right (by norm_num) (by omega)))
    simp [h, hmi]

/-- **C2** (confirmed).  For every invocation of `OnPreOpenProcess` on a
32-bit access mask: a kernel-handle request passes through with the mask
untouched; a request against a non-registered pid passes through unmodified;
a request against a registered pid has exactly the five bits
`PROCESS_TERMINATE` (bit 0), `PROCESS_CREATE_THREAD` (bit 1),
`PROCESS_VM_OPERATION` (bit 3), `PROCESS_VM_READ` (bit 4) and
`PROCESS_DUP_HANDLE` (bit 6) cleared, every other bit of `DesiredAccess`
being unaltered; and the callback returns `OB_PREOP_SUCCESS` in every
case. -/
theorem C2_access_filter (g : ProcessList) (info : PreOperationInfo)
    (hd : info.DesiredAccess < 2 ^ 32) :
    ((OnPreOpenProcess g info).2 = .OB_PREOP_SUCCESS) ∧
    (info.KernelHandle = true → (OnPreOpenProcess g info).1 = info) ∧
    (info.KernelHandle = false → FindProcess g info.pid = false →
      (OnPreOpenProcess g info).1 = info) ∧
    (info.KernelHandle = false → FindProcess g info.pid = true →
      (OnPreOpenProcess g info).1.KernelHandle = info.KernelHandle ∧
      (OnPreOpenProcess g info).1.pid = info.pid ∧
      ∀ i, (OnPreOpenProcess g info).1.DesiredAccess.testBit i =
        if i = 0 ∨ i = 1 ∨ i = 3 ∨ i = 4 ∨ i = 6 then false
        else info.DesiredAccess.testBit i) := by
  refine ⟨?_, ?_, ?_, ?_⟩
  · unfold OnPreOpenProcess
    by_cases hk : info.KernelHandle
    · simp [hk]
    · by_cases hf : FindProcess g info.pid <;> simp [hk, hf]
  · intro hk
    simp [OnPreOpenProcess, hk]
  · intro hk hf
    simp [OnPreOpenProcess, hk, hf]
  · intro hk hf
    have he : (OnPreOpenProcess g info).1
        = { info with DesiredAccess := filteredAccess info.DesiredAccess } := by
      simp [OnPreOpenProcess, hk, hf]
    refine ⟨by rw [he], by rw [he], ?_⟩
    intro i
    rw [he]
    simp only
    unfold filteredAccess
    rw [testBit_clearAccess _ _ _ (by decide),
        testBit_clearAccess _ _ _ (by decide),
        testBit_clearAccess _ _ _ (by decide),
        testBit_clearAccess _ _ _ (by decide),
        testBit_clearAccess _ _ _ (by decide)]
    have hb0 : (PROCESS_TERMINATE : Nat).testBit i = decide (i = 0) := by
      rw [show (PROCESS_TERMINATE : Nat) = 2 ^ 0 from rfl, Nat.testBit_two_pow]
      exact decide_eq_decide.mpr eq_comm
    have hb1 : (PROCESS_CREATE_THREAD : Nat).testBit i = decide (i = 1) := by
      rw [show (PROCESS_CREATE_THREAD : Nat) = 2 ^ 1 from rfl, Nat.testBit_two_pow]
      exact decide_eq_decide.mpr eq_comm
    have hb3 : (PROCESS_VM_OPERATION : Nat).testBit i = decide (i = 3) := by
      rw [show (PROCESS_VM_OPERATION : Nat) = 2 ^ 3 from rfl, Nat.testBit_two_pow]
      exact decide_eq_decide.mpr eq_comm
    have hb4 : (PROCESS_VM_READ : Nat).testBit i = decide (i = 4) := by
      rw [show (PROCESS_VM_READ : Nat) = 2 ^ 4 from rfl, Nat.testBit_two_pow]
      exact decide_eq_decide.mpr eq_comm
    have hb6 : (PROCESS_DUP_HANDLE : Nat).testBit i = decide (i = 6) := by
      rw [show (PROCESS_DUP_HANDLE : Nat) = 2 ^ 6 from rfl, Nat.testBit_two_pow]
      exact decide_eq_decide.mpr eq_comm
    rw [hb0, hb1, hb3, hb4, hb6]
    by_cases h32 : i < 32
    · by_cases h0 : i = 0 <;> by_cases h1 : i = 1 <;> by_cases h3 : i = 3 <;>
        by_cases h4 : i = 4 <;> by_cases h6 : i = 6 <;> simp_all
    · have hdi : info.DesiredAccess.testBit i = false :=
        Nat.testBit_eq_false_of_lt
          (lt_of_lt_of_le hd (Nat.pow_le_pow_right (by norm_num) (by omega)))
      have h0 : i ≠ 0 := by omega
      have h1 : i ≠ 1 := by omega
      have h3 : i ≠ 3 := by omega
      have h4 : i ≠ 4 := by omega
      have h6 : i ≠ 6 := by omega
      simp [h32, hdi, h0, h1, h3, h4, h6]

/-- Witness for `C2_access_filter`: a registry protecting pid 1234 and a
full-access user-mode request, checked on each conjunct. -/
theorem C2_access_filter_witness :
    ((OnPreOpenProcess ⟨[1234, 0], 1⟩ ⟨false, 1234, 0xFFFF⟩).2
        = OB_PREOP_CALLBACK_STATUS.OB_PREOP_SUCCESS) ∧
    (OnPreOpenProcess ⟨[1234, 0], 1⟩ ⟨true, 1234, 0xFFFF⟩).1 = ⟨true, 1234, 0xFFFF⟩ ∧
    (OnPreOpenProcess ⟨[1234, 0], 1⟩ ⟨false, 99, 0xFFFF⟩).1 = ⟨false, 99, 0xFFFF⟩ ∧
    (OnPreOpenProcess ⟨[1234, 0], 1⟩ ⟨false, 1234, 0xFFFF⟩).1.DesiredAccess.testBit 0
      = false ∧
    (OnPreOpenProcess ⟨[1234, 0], 1⟩ ⟨false, 1234, 0xFFFF⟩).1.DesiredAccess.testBit 2
      = (0xFFFF : Nat).testBit 2 := by
  have h1 := C2_access_filter ⟨[1234, 0], 1⟩ ⟨false, 1234, 0xFFFF⟩ (by norm_num)
  have h2 := C2_access_filter ⟨[1234, 0], 1⟩ ⟨true, 1234, 0xFFFF⟩ (by norm_num)
  have h3 := C2_access_filter ⟨[1234, 0], 1⟩ ⟨false, 99, 0xFFFF⟩ (by norm_num)
  refine ⟨h1.1, h2.2.1 rfl, h3.2.2.1 rfl (by decide), ?_, ?_⟩
  · simpa using (h1.2.2.2 rfl (by decide)).2.2 0
  · simpa using (h1.2.2.2 rfl (by decide)).2.2 2

/-! ## Offset resolver

`RtlGetVersion` is modelled by an `Option Nat`: `none` when the version
query fails, `some build` carrying `osVersion.dwBuildNumber` otherwise. -/

/-- `ULONG GetActiveProcessLinksOffset()`: the local starts as
`(ULONG)STATUS_UNSUCCESSFUL` and is overwritten by the build-number switch
only when `RtlGetVersion` succeeds; unknown builds fall back to `0x448`. -/
def GetActiveProcessLinksOffset (osBuild : Option Nat) : Nat :=
  match osBuild with
  | none => STATUS_UNSUCCESSFUL_U32
  | some build =>
    if build = 10240 || build = 10586 || build = 14393 || build = 18362
        || build = 18363 then 0x2f0
    else if build = 15063 || build = 16299 || build = 17134 || build = 17763
      then 0x2e8
    else 0x448

/-- `UINT64 GetTokenOffset()`: the local starts as the sign-extended
`(UINT64)STATUS_UNSUCCESSFUL` and is overwritten by the build-number switch
only when `RtlGetVersion` succeeds; unknown builds fall back to `0x4b8`. -/
def GetTokenOffset (osBuild : Option Nat) : Nat :=
  match osBuild with
  | none => STATUS_UNSUCCESSFUL_U64
  | some build =>
    if build = 18362 || build = 18363 then 0x360
    else if build = 10240 || build = 10586 || build = 14393 || build = 15063
        || build = 16299 || build = 17134 || build = 17763 then 0x358
    else 0x4b8

/-! ## Privilege elevator: `ElevateProcess`

`PsLookupProcessByProcessId` either hands out a referenced `EPROCESS`
(abstracted to a numeric object id) or fails with a status; `NT_SUCCESS`
of the call is equated with the lookup handing out an object, which is the
documented contract of the routine.  The kernel side effects —
`ObDereferenceObject` and the 8-byte token write through
`targetProcess + tokenOffset` — are recorded as an event trace. -/

inductive LookupResult
  | success (eproc : Nat)
  | failure (st : Nat)
deriving DecidableEq

structure KernelEnv where
  osBuild : Option Nat
  lookup : Nat → LookupResult
  read8 : Nat → Nat → Nat

inductive KEvent
  | deref (eproc : Nat)
  | write8 (eproc off val : Nat)
deriving DecidableEq

/-- `NTSTATUS ElevateProcess(ULONG targetPid)`: look up the target, compute
the token offset (unconditionally — the sentinel is never checked), look up
the SYSTEM process, copy the 8-byte token field from the privileged process
into the target at the same offset, and dereference both objects. -/
def ElevateProcess (env : KernelEnv) (targetPid : Nat) : Nat × List KEvent :=
  match env.lookup targetPid with
  | .failure st => (st, [])
  | .success targetProcess =>
    let tokenOffset := GetTokenOffset env.osBuild
    match env.lookup SYSTEM_PROCESS_PID with
    | .failure st => (st, [.deref targetProcess])
    | .success privilegedProcess =>
      (STATUS_SUCCESS,
        [.write8 targetProcess tokenOffset (env.read8 privilegedProcess tokenOffset),
         .deref privilegedProcess,
         .deref targetProcess])

/-- **C9** (confirmed).  `ElevateProcess` releases each process reference it
acquired exactly once on every exit path: when the target lookup fails it
returns that failure status with an empty trace (no references held, no
mutation); when the SYSTEM lookup fails it returns that failure status
having dereferenced exactly the target (and no write occurred); on success
it performs exactly one 8-byte copy of the token field at the resolved
token offset from the privileged process into the target at the same
offset, then dereferences each of the two objects exactly once. -/
theorem C9_elevate_refcounts (env : KernelEnv) (targetPid : Nat) :
    (∀ st, env.lookup targetPid = .failure st →
      ElevateProcess env targetPid = (st, [])) ∧
    (∀ t st, env.lookup targetPid = .success t →
      env.lookup SYSTEM_PROCESS_PID = .failure st →
      ElevateProcess env targetPid = (st, [.deref t])) ∧
    (∀ t p, env.lookup targetPid = .success t →
      env.lookup SYSTEM_PROCESS_PID = .success p →
      ElevateProcess env targetPid
        = (STATUS_SUCCESS,
           [.write8 t (GetTokenOffset env.osBuild)
              (env.read8 p (GetTokenOffset env.osBuild)),
            .deref p, .deref t])) := by
  refine ⟨?_, ?_, ?_⟩
  · intro st h
    simp [ElevateProcess, h]
  · intro t st ht hs
    simp [ElevateProcess, ht, hs]
  · intro t p ht hp
    simp [ElevateProcess, ht, hp]

/-- A concrete kernel environment: pid 7 resolves to object 100, the SYSTEM
pid 4 to object 200, pid 9 fails to resolve, every 8-byte read yields 55. -/
def elevateEnv : KernelEnv where
  osBuild := some 19045
  lookup := fun pid =>
    if pid = 7 then .success 100
    else if pid = 4 then .success 200
    else .failure 0xC000000B
  read8 := fun _ _ => 55

/-- Witness for `C9_elevate_refcounts`: all three exit paths exercised in
`elevateEnv` (and in a copy of it whose SYSTEM lookup fails). -/
theorem C9_elevate_refcounts_witness :
    ElevateProcess elevateEnv 9 = (0xC000000B, []) ∧
    ElevateProcess { elevateEnv with
        lookup := fun pid => if pid = 7 then .success 100 else .failure 0xC000000B } 7
      = (0xC000000B, [.deref 100]) ∧
    ElevateProcess elevateEnv 7
      = (STATUS_SUCCESS, [.write8 100 0x4b8 55, .deref 200, .deref 100]) := by
  refine ⟨(C9_elevate_refcounts elevateEnv 9).1 0xC000000B rfl, ?_, ?_⟩
  · exact (C9_elevate_refcounts _ 7).2.1 100 0xC000000B rfl rfl
  · exact (C9_elevate_refcounts elevateEnv 7).2.2 100 200 rfl rfl

/-! ## Process hider: `RemoveProcessLinks` and `HideProcess`

A `LIST_ENTRY` node is abstracted to a numeric id; the kernel process list
is a pair of pointer maps `flink`/`blink`.  `current->Blink = current->Flink
= (PLIST_ENTRY)&current->Flink` makes the node point at itself (`Flink` is
the first member of `LIST_ENTRY`, so `&current->Flink` is the node's own
address). -/

structure LState where
  flink : Nat → Nat
  blink : Nat → Nat

/-- A single pointer store `f[a] = v`. -/
def upd (f : Nat → Nat) (a v : Nat) : Nat → Nat :=
  fun x => if x = a then v else f x

/-- `void RemoveProcessLinks(PLIST_ENTRY current)`: capture `previous` and
`next`, rewrite `previous->Flink = next` and `next->Blink = previous`, then
point `current` at itself (stores applied in source order — a later store
shadows an earlier one at the same address). -/
def RemoveProcessLinks (s : LState) (current : Nat) : LState :=
  let previous := s.blink current
  let next := s.flink current
  { flink := upd (upd s.flink previous next) current current,
    blink := upd (upd s.blink next previous) current current }

/-- Cyclic-successor search: `first` is the value returned for the last
element (the wrap-around). -/
def ringNextAux (first : Nat) : List Nat → Nat → Option Nat
  | [], _ => none
  | [a], x => if x = a then some first else none
  | a :: b :: t, x => if x = a then some b else ringNextAux first (b :: t) x

/-- Successor in the circular list presented by `l`. -/
def ringNext (l : List Nat) (x : Nat) : Nat :=
  (ringNextAux (l.headD 0) l x).getD x

/-- Predecessor in the circular list presented by `l`. -/
def ringPrev (l : List Nat) (x : Nat) : Nat :=
  (ringNextAux (l.reverse.headD 0) l.reverse x).getD x

/-- The synthetic circular doubly linked list over the nodes of `l`. -/
def mkRing (l : List Nat) : LState :=
  { flink := ringNext l, blink := ringPrev l }

theorem ringPrev_eq_ringNext_reverse (l : List Nat) (x : Nat) :
    ringPrev l x = ringNext l.reverse x := rfl

/-! ### Ring lemmas -/

theorem ringNextAux_cons (f a x : Nat) (l : List Nat) :
    ringNextAux f (a :: l) x
      = if x = a then some (l.headD f) else ringNextAux f l x := by
  cases l <;> simp [ringNextAux]

theorem ringNextAux_not_mem (f x : Nat) (l : List Nat) (h : x ∉ l) :
    ringNextAux f l x = none := by
  induction l with
  | nil => rfl
  | cons a t ih =>
    have hxa : x ≠ a := fun he => h (he ▸ List.mem_cons_self a t)
    rw [ringNextAux_cons, if_neg hxa]
    exact ih (fun hm => h (List.mem_cons_of_mem a hm))

theorem ringNextAux_append_right (f x : Nat) (u w : List Nat) (h : x ∉ u) :
    ringNextAux f (u ++ w) x = ringNextAux f w x := by
  induction u with
  | nil => rfl
  | cons a t ih =>
    have hxa : x ≠ a := fun he => h (he ▸ List.mem_cons_self a t)
    rw [List.cons_append, ringNextAux_cons, if_neg hxa]
    exact ih (fun hm => h (List.mem_cons_of_mem a hm))

theorem ringNextAux_append_left (f x : Nat) (u w : List Nat) (h : x ∈ u) :
    ringNextAux f (u ++ w) x = ringNextAux (w.headD f) u x := by
  induction u with
  | nil => cases h
  | cons a t ih =>
    rw [List.cons_append, ringNextAux_cons f a x (t ++ w),
      ringNextAux_cons (w.headD f) a x t]
    by_cases hxa : x = a
    · rw [if_pos hxa, if_pos hxa]
      cases t <;> simp
    · rw [if_neg hxa, if_neg hxa]
      rcases List.mem_cons.mp h with h1 | h1
      · exact absurd h1 hxa
      · exact ih h1

/-- The last element of a duplicate-free list wraps around to `first`. -/
theorem ringNextAux_getLast? (f x : Nat) (u : List Nat) (hnd : u.Nodup)
    (h : u.getLast? = some x) : ringNextAux f u x = some f := by
  induction u with
  | nil => cases h
  | cons a t ih =>
    cases t with
    | nil =>
      have hax : a = x := by simpa using h
      simp [ringNextAux, hax]
    | cons b t' =>
      have h' : (b :: t').getLast? = some x := by
        rw [← List.getLast?_cons_cons (a := a)]
        exact h
      have hmem : x ∈ b :: t' := List.mem_of_getLast?_eq_some h'
      have hna : a ∉ b :: t' := (List.nodup_cons.mp hnd).1
      have hxa : x ≠ a := fun he => hna (he ▸ hmem)
      rw [ringNextAux_cons, if_neg hxa]
      exact ih ((List.nodup_cons.mp hnd).2) h'

/-- Away from the last element, the wrap-around value is irrelevant. -/
theorem ringNextAux_first_irrel (f g x : Nat) (u : List Nat) (hm : x ∈ u)
    (hlast : u.getLast? ≠ some x) :
    ringNextAux f u x = ringNextAux g u x := by
  induction u with
  | nil => cases hm
  | cons a t ih =>
    cases t with
    | nil =>
      have hax : x = a := by simpa using hm
      have hne : a ≠ x := by simpa using hlast
      exact absurd hax.symm hne
    | cons b t' =>
      rw [ringNextAux_cons f a x (b :: t'), ringNextAux_cons g a x (b :: t')]
      by_cases hxa : x = a
      · rw [if_pos hxa, if_pos hxa]
        simp
      · rcases List.mem_cons.mp hm with h1 | h1
        · exact absurd h1 hxa
        · have hlast' : (b :: t').getLast? ≠ some x := by
            rw [← List.getLast?_cons_cons (a := a)]
            exact hlast
          rw [if_neg hxa, if_neg hxa]
          exact ih h1 hlast'

theorem headD_append_left (u w : List Nat) (d : Nat) (hu : u ≠ []) :
    (u ++ w).headD d = u.headD d := by
  cases u with
  | nil => cases hu rfl
  | cons a t => simp

theorem getLast?_eq_reverse_headD (u : List Nat) (d : Nat) (hu : u ≠ []) :
    u.getLast? = some (u.reverse.headD d) := by
  cases hrev : u.reverse with
  | nil => exact absurd (by simpa using congrArg List.reverse hrev) hu
  | cons a t =>
    rw [List.getLast?_eq_head?_reverse, hrev]
    simp

theorem ringNext_insert (u v : List Nat) (c : Nat) (hcu : c ∉ u) :
    ringNext (u ++ c :: v) c = v.headD ((u ++ c :: v).headD 0) := by
  unfold ringNext
  rw [ringNextAux_append_right _ _ _ _ hcu, ringNextAux_cons, if_pos rfl]
  simp

theorem reverse_insert (u v : List Nat) (c : Nat) :
    (u ++ c :: v).reverse = v.reverse ++ c :: u.reverse := by
  simp

theorem ringPrev_insert (u v : List Nat) (c : Nat) (hcv : c ∉ v) :
    ringPrev (u ++ c :: v) c
      = u.reverse.headD ((u ++ c :: v).reverse.headD 0) := by
  rw [ringPrev_eq_ringNext_reverse, reverse_insert]
  have hcv' : c ∉ v.reverse := by simpa using hcv
  rw [ringNext_insert v.reverse u.reverse c hcv']

/-- With a nonempty prefix, the predecessor of `c` is the last element of
the prefix. -/
theorem ringPrev_insert_left (u v : List Nat) (c : Nat) (hcv : c ∉ v)
    (hu : u ≠ []) : u.getLast? = some (ringPrev (u ++ c :: v) c) := by
  rw [ringPrev_insert u v c hcv]
  have hur : u.reverse ≠ [] := by simpa using hu
  have := getLast?_eq_reverse_headD u ((u ++ c :: v).reverse.headD 0) hu
  exact this

/-- With an empty prefix, the predecessor of `c` is the last element of the
suffix. -/
theorem ringPrev_insert_nil (v : List Nat) (c : Nat) (hcv : c ∉ v)
    (hv : v ≠ []) : v.getLast? = some (ringPrev (c :: v) c) := by
  have h := ringPrev_insert [] v c hcv
  simp only [List.nil_append, List.reverse_nil, List.headD_nil] at h
  rw [h]
  have : (c :: v).reverse = v.reverse ++ [c] := by simp
  rw [this, headD_append_left v.reverse [c] 0 (by simpa using hv)]
  exact getLast?_eq_reverse_headD v 0 hv

/-- With a nonempty suffix, the successor of `c` is the head of the
suffix. -/
theorem ringNext_insert_right (u v : List Nat) (c : Nat) (hcu : c ∉ u)
    (hv : v ≠ []) : v.head? = some (ringNext (u ++ c :: v) c) := by
  rw [ringNext_insert u v c hcu]
  cases v with
  | nil => cases hv rfl
  | cons b t => simp

/-- With an empty suffix, the successor of `c` is the head of the prefix. -/
theorem ringNext_insert_last (u : List Nat) (c : Nat) (hcu : c ∉ u)
    (hu : u ≠ []) : u.head? = some (ringNext (u ++ [c]) c) := by
  rw [ringNext_insert u [] c hcu]
  cases u with
  | nil => cases hu rfl
  | cons a t => simp

/-- Erasing `c` from a duplicate-free ring changes the successor map only at
`c`'s predecessor, which jumps to `c`'s successor. -/
theorem ringNext_erase (l : List Nat) (c x : Nat) (hnd : l.Nodup) (hc : c ∈ l)
    (hx : x ∈ l) (hxc : x ≠ c) :
    ringNext (l.erase c) x
      = if x = ringPrev l c then ringNext l c else ringNext l x := by
  obtain ⟨u, v, rfl⟩ := List.append_of_mem hc
  obtain ⟨hndu, hndcv, hdisj⟩ := List.nodup_append.mp hnd
  have hcu : c ∉ u := fun h => hdisj h (List.mem_cons_self c v)
  have hcv : c ∉ v := (List.nodup_cons.mp hndcv).1
  have hndv : v.Nodup := (List.nodup_cons.mp hndcv).2
  have herase : (u ++ c :: v).erase c = u ++ v := by
    rw [List.erase_append_right _ hcu, List.erase_cons_head]
  rw [herase]
  have hxm : x ∈ u ++ v := by
    rcases List.mem_append.mp hx with h1 | h1
    · exact List.mem_append.mpr (Or.inl h1)
    · rcases List.mem_cons.mp h1 with h2 | h2
      · exact absurd h2 hxc
      · exact List.mem_append.mpr (Or.inr h2)
  rcases List.mem_append.mp hxm with hxu | hxv
  · -- x sits in the prefix u
    have hu : u ≠ [] := List.ne_nil_of_mem hxu
    by_cases hlast : u.getLast? = some x
    · -- x is the last element of u, i.e. the predecessor of c
      have hprev : x = ringPrev (u ++ c :: v) c := by
        have h := ringPrev_insert_left u v c hcv hu
        rw [hlast] at h
        exact Option.some.inj h
      rw [if_pos hprev, ringNext_insert u v c hcu]
      unfold ringNext
      rw [ringNextAux_append_left _ _ _ _ hxu,
        ringNextAux_getLast? _ _ _ hndu hlast]
      simp only [Option.getD_some]
      cases v with
      | nil =>
        simp only [List.headD_nil]
        rw [List.append_nil, headD_append_left u [c] 0 hu]
      | cons b t => simp
    · -- x is not the last element of u: its successor is unchanged
      have hprev : x ≠ ringPrev (u ++ c :: v) c := by
        intro he
        have h := ringPrev_insert_left u v c hcv hu
        rw [← he] at h
        exact hlast h
      rw [if_neg hprev]
      unfold ringNext
      rw [ringNextAux_append_left _ _ _ _ hxu,
        ringNextAux_append_left _ _ _ _ hxu,
        ringNextAux_first_irrel (v.headD ((u ++ v).headD 0))
          ((c :: v).headD ((u ++ c :: v).headD 0)) x u hxu hlast]
  · -- x sits in the suffix v
    have hv : v ≠ [] := List.ne_nil_of_mem hxv
    have hxu' : x ∉ u := fun h => hdisj h (List.mem_cons_of_mem c hxv)
    by_cases hlast : v.getLast? = some x
    · -- x is the last element of v
      by_cases hu : u = []
      · -- the whole ring is c :: v and x is the predecessor of c
        subst hu
        simp only [List.nil_append]
        have hprev : x = ringPrev (c :: v) c := by
          have h := ringPrev_insert_nil v c hcv hv
          rw [hlast] at h
          exact Option.some.inj h
        rw [if_pos hprev]
        have hn := ringNext_insert [] v c (by simp)
        simp only [List.nil_append] at hn
        rw [hn]
        unfold ringNext
        rw [ringNextAux_getLast? _ _ _ hndv hlast]
        simp only [Option.getD_some]
        cases v with
        | nil => cases hv rfl
        | cons b t => simp
      · -- the predecessor of c sits in u, so x is not it; both sides wrap to
        -- the head of u
        have hprev : x ≠ ringPrev (u ++ c :: v) c := by
          intro he
          have hm : ringPrev (u ++ c :: v) c ∈ u :=
            List.mem_of_getLast?_eq_some (ringPrev_insert_left u v c hcv hu)
          rw [← he] at hm
          exact hxu' hm
        rw [if_neg hprev]
        unfold ringNext
        rw [ringNextAux_append_right _ _ _ _ hxu',
          ringNextAux_append_right _ _ _ _ hxu',
          ringNextAux_cons, if_neg hxc,
          ringNextAux_getLast? _ _ _ hndv hlast,
          ringNextAux_getLast? _ _ _ hndv hlast]
        simp only [Option.getD_some]
        rw [headD_append_left u v 0 hu, headD_append_left u (c :: v) 0 hu]
    · -- x is not the last element of v: its successor is unchanged
      have hprev : x ≠ ringPrev (u ++ c :: v) c := by
        by_cases hu : u = []
        · subst hu
          intro he
          rw [List.nil_append] at he
          have h := ringPrev_insert_nil v c hcv hv
          rw [← he] at h
          exact hlast h
        · intro he
          have hm : ringPrev (u ++ c :: v) c ∈ u :=
            List.mem_of_getLast?_eq_some (ringPrev_insert_left u v c hcv hu)
          rw [← he] at hm
          exact hxu' hm
      rw [if_neg hprev]
      unfold ringNext
      rw [ringNextAux_append_right _ _ _ _ hxu',
        ringNextAux_append_right _ _ _ _ hxu',
        ringNextAux_cons, if_neg hxc,
        ringNextAux_first_irrel ((u ++ v).headD 0)
          ((u ++ c :: v).headD 0) x v hxv hlast]

theorem erase_reverse (l : List Nat) (c : Nat) (hnd : l.Nodup) :
    l.reverse.erase c = (l.erase c).reverse := by
  rw [List.Nodup.erase_eq_filter (by simpa using hnd) c,
    List.Nodup.erase_eq_filter hnd c, List.filter_reverse]

/-- The `blink` mirror of `ringNext_erase`. -/
theorem ringPrev_erase (l : List Nat) (c x : Nat) (hnd : l.Nodup) (hc : c ∈ l)
    (hx : x ∈ l) (hxc : x ≠ c) :
    ringPrev (l.erase c) x
      = if x = ringNext l c then ringPrev l c else ringPrev l x := by
  have h := ringNext_erase l.reverse c x (List.nodup_reverse.mpr hnd)
    (List.mem_reverse.mpr hc) (List.mem_reverse.mpr hx) hxc
  rw [erase_reverse l c hnd] at h
  have hcond : ringPrev l.reverse c = ringNext l c := by
    rw [ringPrev_eq_ringNext_reverse, List.reverse_reverse]
  rw [hcond] at h
  rw [← ringPrev_eq_ringNext_reverse] at h
  exact h

/-- **C7** (confirmed).  For every circular doubly linked list built from a
duplicate-free node list of length at least 2, `RemoveProcessLinks` on a
member node `c` sets the previous node's forward link to the next node and
the next node's backward link to the previous node; every remaining node's
links are exactly those of the N-1 node circular list in the original
relative order (the list with `c` erased); and the unlinked node's own
forward and backward links both point to the node itself. -/
theorem C7_remove_process_links (l : List Nat) (c : Nat) (hnd : l.Nodup)
    (hlen : 2 ≤ l.length) (hc : c ∈ l) :
    ((RemoveProcessLinks (mkRing l) c).flink c = c) ∧
    ((RemoveProcessLinks (mkRing l) c).blink c = c) ∧
    ((RemoveProcessLinks (mkRing l) c).flink (ringPrev l c) = ringNext l c) ∧
    ((RemoveProcessLinks (mkRing l) c).blink (ringNext l c) = ringPrev l c) ∧
    (∀ x ∈ l, x ≠ c →
      (RemoveProcessLinks (mkRing l) c).flink x = ringNext (l.erase c) x ∧
      (RemoveProcessLinks (mkRing l) c).blink x = ringPrev (l.erase c) x) := by
  have hkey := fun x hx hxc => ringNext_erase l c x hnd hc hx hxc
  have hkeyp := fun x hx hxc => ringPrev_erase l c x hnd hc hx hxc
  obtain ⟨u, v, hdecomp⟩ := List.append_of_mem hc
  have hndl := hnd
  rw [hdecomp] at hndl
  obtain ⟨hndu, hndcv, hdisj⟩ := List.nodup_append.mp hndl
  have hcu : c ∉ u := fun h => hdisj h (List.mem_cons_self c v)
  have hcv : c ∉ v := (List.nodup_cons.mp hndcv).1
  have hprev_ne : ringPrev l c ≠ c := by
    rw [hdecomp]
    by_cases hu : u = []
    · subst hu
      have hv : v ≠ [] := by
        intro hveq
        rw [hdecomp, hveq] at hlen
        simp at hlen
      have h := ringPrev_insert_nil v c hcv hv
      have hm : ringPrev (c :: v) c ∈ v := List.mem_of_getLast?_eq_some h
      simp only [List.nil_append]
      exact fun he => hcv (he ▸ hm)
    · have h := ringPrev_insert_left u v c hcv hu
      have hm : ringPrev (u ++ c :: v) c ∈ u := List.mem_of_getLast?_eq_some h
      exact fun he => hcu (he ▸ hm)
  have hnext_ne : ringNext l c ≠ c := by
    rw [hdecomp]
    by_cases hv : v = []
    · subst hv
      have hu : u ≠ [] := by
        intro hueq
        rw [hdecomp, hueq] at hlen
        simp at hlen
      have h := ringNext_insert_last u c hcu hu
      have hm : ringNext (u ++ [c]) c ∈ u := by
        cases u with
        | nil => cases hu rfl
        | cons a t =>
          have ha : a = ringNext ((a :: t) ++ [c]) c := by simpa using h
          rw [← ha]
          exact List.mem_cons_self a t
      exact fun he => hcu (he ▸ hm)
    · have h := ringNext_insert_right u v c hcu hv
      have hm : ringNext (u ++ c :: v) c ∈ v := by
        cases v with
        | nil => cases hv rfl
        | cons b t =>
          have hb : b = ringNext (u ++ c :: b :: t) c := by simpa using h
          rw [← hb]
          exact List.mem_cons_self b t
      exact fun he => hcv (he ▸ hm)
  refine ⟨?_, ?_, ?_, ?_, ?_⟩
  · simp [RemoveProcessLinks, upd]
  · simp [RemoveProcessLinks, upd]
  · simp only [RemoveProcessLinks, mkRing, upd]
    rw [if_neg hprev_ne]
    simp
  · simp only [RemoveProcessLinks, mkRing, upd]
    rw [if_neg hnext_ne]
    simp
  · intro x hx hxc
    constructor
    · rw [hkey x hx hxc]
      simp only [RemoveProcessLinks, mkRing, upd]
      rw [if_neg hxc]
    · rw [hkeyp x hx hxc]
      simp only [RemoveProcessLinks, mkRing, upd]
      rw [if_neg hxc]

/-- Witness for `C7_remove_process_links`: unlinking node 2 from the ring
`1 → 2 → 3 → 1`. -/
theorem C7_remove_process_links_witness :
    ((RemoveProcessLinks (mkRing [1, 2, 3]) 2).flink 2 = 2) ∧
    ((RemoveProcessLinks (mkRing [1, 2, 3]) 2).blink 2 = 2) ∧
    ((RemoveProcessLinks (mkRing [1, 2, 3]) 2).flink (ringPrev [1, 2, 3] 2)
      = ringNext [1, 2, 3] 2) ∧
    ((RemoveProcessLinks (mkRing [1, 2, 3]) 2).blink (ringNext [1, 2, 3] 2)
      = ringPrev [1, 2, 3] 2) ∧
    (∀ x ∈ [1, 2, 3], x ≠ 2 →
      (RemoveProcessLinks (mkRing [1, 2, 3]) 2).flink x
        = ringNext ([1, 2, 3].erase 2) x ∧
      (RemoveProcessLinks (mkRing [1, 2, 3]) 2).blink x
        = ringPrev ([1, 2, 3].erase 2) x) :=
  C7_remove_process_links [1, 2, 3] 2 (by decide) (by decide) (by decide)

/-! ### `HideProcess` -/

/-- The `while ((ULONG_PTR)StartProcess != (ULONG_PTR)currentEProcess)` loop
of `HideProcess`: check the current node's pid, else advance along `Flink`.
Returns the visited nodes in order together with the matching node, if any.
`fuel` bounds the recursion (the C loop is unbounded; on a well-formed ring
the start node is reached within `fuel`, as proved below). -/
def hideLoop (s : LState) (pids : Nat → Nat) (pid start : Nat) :
    Nat → Nat → List Nat × Option Nat
  | 0, _ => ([], none)
  | fuel + 1, cur =>
    if cur = start then ([], none)
    else if pids cur = pid then ([cur], some cur)
    else
      let r := hideLoop s pids pid start fuel (s.flink cur)
      (cur :: r.1, r.2)

/-- `NTSTATUS HideProcess(ULONG pid)`: abort with `STATUS_UNSUCCESSFUL` when
the offset resolver reports the sentinel; otherwise test the current process
(`start`) first and then walk the ring via `Flink` until returning to
`start`, unlinking on a match.  Returns the status, the possibly modified
list state and the visited nodes. -/
def HideProcess (osBuild : Option Nat) (s : LState) (pids : Nat → Nat)
    (start fuel pid : Nat) : Nat × LState × List Nat :=
  if GetActiveProcessLinksOffset osBuild = STATUS_UNSUCCESSFUL_U32 then
    (STATUS_UNSUCCESSFUL, s, [])
  else if pids start = pid then
    (STATUS_SUCCESS, RemoveProcessLinks s start, [start])
  else
    match hideLoop s pids pid start fuel (s.flink start) with
    | (vs, some found) => (STATUS_SUCCESS, RemoveProcessLinks s found, start :: vs)
    | (vs, none) => (STATUS_SUCCESS, s, start :: vs)

theorem ringNext_in_ring (a : Nat) (p q' : List Nat) (x : Nat)
    (hnd : (a :: (p ++ x :: q')).Nodup) :
    ringNext (a :: (p ++ x :: q')) x = q'.headD a := by
  have hat : a ∉ p ++ x :: q' := (List.nodup_cons.mp hnd).1
  have hnd' : (p ++ x :: q').Nodup := (List.nodup_cons.mp hnd).2
  obtain ⟨-, -, hdisj⟩ := List.nodup_append.mp hnd'
  have hxp : x ∉ p := fun h => hdisj h (List.mem_cons_self x q')
  have hxa : x ≠ a := by
    intro he
    exact hat (he ▸ List.mem_append.mpr (Or.inr (List.mem_cons_self x q')))
  have hxu : x ∉ a :: p := by
    intro h
    rcases List.mem_cons.mp h with h1 | h1
    · exact hxa h1
    · exact hxp h1
  have hshape : a :: (p ++ x :: q') = (a :: p) ++ x :: q' := by simp
  rw [hshape, ringNext_insert (a :: p) q' x hxu]
  simp

theorem hideLoop_no_match (a : Nat) (t : List Nat) (pids : Nat → Nat) (pid : Nat)
    (hnd : (a :: t).Nodup) (hp : ∀ n ∈ a :: t, pids n ≠ pid) :
    ∀ (q p : List Nat), t = p ++ q → ∀ fuel, q.length + 1 ≤ fuel →
      hideLoop (mkRing (a :: t)) pids pid a fuel (q.headD a) = (q, none) := by
  intro q
  induction q with
  | nil =>
    intro p hpq fuel hf
    cases fuel with
    | zero => omega
    | succ f => simp [hideLoop]
  | cons x q' ih =>
    intro p hpq fuel hf
    cases fuel with
    | zero => simp at hf
    | succ f =>
      have hxt : x ∈ t := by
        rw [hpq]
        exact List.mem_append.mpr (Or.inr (List.mem_cons_self x q'))
      have hat : a ∉ t := (List.nodup_cons.mp hnd).1
      have hxa : x ≠ a := fun he => hat (he ▸ hxt)
      have hpx : pids x ≠ pid := hp x (List.mem_cons_of_mem a hxt)
      have hflink : (mkRing (a :: t)).flink x = q'.headD a := by
        have hnd' := hnd
        rw [hpq] at hnd'
        have := ringNext_in_ring a p q' x hnd'
        simp only [mkRing]
        rw [hpq]
        exact this
      simp only [hideLoop, List.headD_cons, if_neg hxa, if_neg hpx]
      rw [hflink,
        ih (p ++ [x]) (by rw [hpq, List.append_assoc]; rfl) f (by simp at hf ⊢; omega)]

/-- **C8** (confirmed).  For every pid carried by no node of the synthetic
circular list, `HideProcess` (with a successful version query) returns
`STATUS_SUCCESS`, leaves the list state untouched, and its traversal visits
exactly the nodes of the ring, once each, in ring order starting from the
current process — i.e. it walks the full circular list exactly once, until
the starting node would be revisited, and a no-match traversal is reported
as success. -/
theorem C8_hide_no_match (build a : Nat) (t : List Nat)
    (pids : Nat → Nat) (pid : Nat) (hnd : (a :: t).Nodup)
    (hp : ∀ n ∈ a :: t, pids n ≠ pid) :
    HideProcess (some build) (mkRing (a :: t)) pids a (a :: t).length pid
      = (STATUS_SUCCESS, mkRing (a :: t), a :: t) := by
  have hoff : GetActiveProcessLinksOffset (some build) ≠ STATUS_UNSUCCESSFUL_U32 := by
    simp only [GetActiveProcessLinksOffset, STATUS_UNSUCCESSFUL_U32]
    split
    · decide
    · split <;> decide
  have hpa : pids a ≠ pid := hp a (List.mem_cons_self a t)
  have hflinka : (mkRing (a :: t)).flink a = t.headD a := by
    have h := ringNext_insert [] t a (by simp)
    simp only [List.nil_append] at h
    simp only [mkRing]
    rw [h]
    simp
  unfold HideProcess
  rw [if_neg hoff, if_neg hpa, hflinka,
    hideLoop_no_match a t pids pid hnd hp t [] rfl (a :: t).length (by simp)]

/-- Witness for `C8_hide_no_match`: pid 9 is absent from the ring
`1 → 2 → 3 → 1`. -/
theorem C8_hide_no_match_witness :
    HideProcess (some 19045) (mkRing [1, 2, 3]) (fun n => n) 1 3 9
      = (STATUS_SUCCESS, mkRing [1, 2, 3], [1, 2, 3]) :=
  C8_hide_no_match 19045 1 [2, 3] (fun n => n) 9 (by decide) (by decide)

/-! ### Claim C3 -/

/-- A kernel environment whose OS version query fails but whose process
lookups succeed: pid 7 resolves to object 100 and the SYSTEM pid 4 to
object 200; every 8-byte read yields 55. -/
def versionFailEnv : KernelEnv where
  osBuild := none
  lookup := fun pid =>
    if pid = 7 then .success 100
    else if pid = 4 then .success 200
    else .failure 0xC000000B
  read8 := fun _ _ => 55

/-- **C3** (code bug).  `HideProcess` honours the claim: when the version
query fails it returns `STATUS_UNSUCCESSFUL` without touching any link and
without visiting any node.  `ElevateProcess` does not: it calls
`GetTokenOffset` but never compares the result against the failure
sentinel, so when the version query fails (and both process lookups
succeed) it writes 8 bytes through the garbage offset
`(UINT64)STATUS_UNSUCCESSFUL = 0xFFFFFFFFC0000001` and even returns
`STATUS_SUCCESS`, instead of aborting before dereferencing or mutating
memory through the returned offset value. -/
theorem C3_version_failure :
    HideProcess none (mkRing [1, 2]) (fun n => n) 1 2 2
      = (STATUS_UNSUCCESSFUL, mkRing [1, 2], []) ∧
    GetTokenOffset none = STATUS_UNSUCCESSFUL_U64 ∧
    ElevateProcess versionFailEnv 7
      = (STATUS_SUCCESS,
         [.write8 100 STATUS_UNSUCCESSFUL_U64 55, .deref 200, .deref 100]) :=
  ⟨rfl, rfl, rfl⟩

/-! ## Remote module patcher: `PatchModule` (ModuleUtils.hpp)

The environment records the outcome of each kernel call along the function's
control flow (`ExAllocatePool` successes, `PsLookupProcessByProcessId`,
PEB/loader availability, the module/export scans, `ObOpenObjectByPointer`,
and the `NTSTATUS` results of `ZwProtectVirtualMemory` and
`MmCopyVirtualMemory`); the resolved export address
(`moduleImageBase + addresses[ordinals[j]]`) is `functionAddress`.  Every
side effect is recorded as an event, and the target process memory is a
byte map `Nat → Nat` updated by the cross-process copy. -/

def PAGE_EXECUTE_READWRITE : Nat := 0x40

/-- The three temporary pool buffers of `PatchModule`. -/
inductive PBuf
  | moduleName
  | functionName
  | patch
deriving DecidableEq

inductive PEvent
  | alloc (buf : PBuf) (size : Nat)
  | memcpyTo (dst : PBuf) (len : Nat)
  | free (buf : PBuf)
  | attach
  | detach
  | derefTarget
  | openHandle
  | closeHandle
  | protect (addr size prot : Nat)
  | copyVM (src : List Nat) (dstAddr len : Nat)
deriving DecidableEq

/-- The request: pid, wide module-name string, function-name string and
patch string (each as its character list, `wcslen`/`strlen` = length). -/
structure PatchedModule where
  Pid : Nat
  ModuleName : List Nat
  FunctionName : List Nat
  Patch : List Nat
deriving DecidableEq

structure PatchEnv where
  zwProtectLoaded : Bool
  mmCopyLoaded : Bool
  allocModuleName : Bool
  allocFunctionName : Bool
  allocPatch : Bool
  lookupOk : Bool
  pebOk : Bool
  loaderOk : Bool
  moduleFound : Bool
  dosValid : Bool
  ntValid : Bool
  exportPresent : Bool
  exportFound : Bool
  openOk : Bool
  protectStatus : Nat
  copyStatus : Nat
  oldProtection : Nat
  functionAddress : Nat

/-- `char testPatch[6] = { 0xB8, 0x57, 0x00, 0x07, 0x80, 0xC3 };` — the
hard-coded byte sequence `PatchModule` actually copies. -/
def testPatch : List Nat := [0xB8, 0x57, 0x00, 0x07, 0x80, 0xC3]

/-- Write consecutive bytes starting at `addr`. -/
def writeBytes (mem : Nat → Nat) (addr : Nat) : List Nat → (Nat → Nat)
  | [] => mem
  | b :: bs => writeBytes (fun a => if a = addr then b else mem a) (addr + 1) bs

/-- The `CleanUp:` label of `PatchModule`: detach, free the three buffers,
dereference the target process. -/
def cleanupEvents : List PEvent :=
  [.detach, .free .moduleName, .free .functionName, .free .patch, .derefTarget]

/-- `NTSTATUS PatchModule(PatchedModule* ModuleToPatch)`: the staging
copies are `memcpy(moduleName, ..., (wcslen+1)*2)`,
`memcpy(functionName, ..., strlen(FunctionName)+1)` and — the source's
copy-destination slip — `memcpy(functionName, ModuleToPatch->FunctionName,
strlen(ModuleToPatch->Patch))`, which targets the function-name buffer with
the patch's length; the fresh `patch` buffer is never written.  A failed
`PsLookupProcessByProcessId` returns immediately, before `CleanUp` exists,
without freeing the three buffers.  `patchLen` is the constant 6 and the
copy source is the constant `testPatch`. -/
def PatchModule (env : PatchEnv) (req : PatchedModule) (mem : Nat → Nat) :
    Nat × List PEvent × (Nat → Nat) :=
  if !env.zwProtectLoaded || !env.mmCopyLoaded then (STATUS_UNSUCCESSFUL, [], mem)
  else if !env.allocModuleName then (STATUS_UNSUCCESSFUL, [], mem)
  else if !env.allocFunctionName then
    (STATUS_UNSUCCESSFUL,
     [.alloc .moduleName ((req.ModuleName.length + 1) * 2),
      .memcpyTo .moduleName ((req.ModuleName.length + 1) * 2),
      .free .moduleName], mem)
  else if !env.allocPatch then
    (STATUS_UNSUCCESSFUL,
     [.alloc .moduleName ((req.ModuleName.length + 1) * 2),
      .memcpyTo .moduleName ((req.ModuleName.length + 1) * 2),
      .alloc .functionName (req.FunctionName.length + 1),
      .memcpyTo .functionName (req.FunctionName.length + 1),
      .free .functionName, .free .moduleName], mem)
  else
    let pre : List PEvent :=
      [.alloc .moduleName ((req.ModuleName.length + 1) * 2),
       .memcpyTo .moduleName ((req.ModuleName.length + 1) * 2),
       .alloc .functionName (req.FunctionName.length + 1),
       .memcpyTo .functionName (req.FunctionName.length + 1),
       .alloc .patch req.Patch.length,
       .memcpyTo .functionName req.Patch.length]
    if !env.lookupOk then (STATUS_UNSUCCESSFUL, pre, mem)
    else
      let preA := pre ++ [.attach]
      if !env.pebOk then (STATUS_UNSUCCESSFUL, preA ++ cleanupEvents, mem)
      else if !env.loaderOk then (STATUS_UNSUCCESSFUL, preA ++ cleanupEvents, mem)
      else if !env.moduleFound then (STATUS_UNSUCCESSFUL, preA ++ cleanupEvents, mem)
      else if !env.dosValid then (STATUS_UNSUCCESSFUL, preA ++ cleanupEvents, mem)
      else if !env.ntValid then (STATUS_UNSUCCESSFUL, preA ++ cleanupEvents, mem)
      else if !env.exportPresent then (STATUS_UNSUCCESSFUL, preA ++ cleanupEvents, mem)
      else if !env.exportFound then (STATUS_SUCCESS, preA ++ cleanupEvents, mem)
      else if !env.openOk then (STATUS_UNSUCCESSFUL, preA ++ cleanupEvents, mem)
      else
        let addr := env.functionAddress
        let ev1 := preA ++ [.openHandle, .protect addr 6 PAGE_EXECUTE_READWRITE]
        if env.protectStatus ≠ STATUS_SUCCESS then
          (env.protectStatus, ev1 ++ [.closeHandle] ++ cleanupEvents, mem)
        else
          let ev2 := ev1 ++ [.copyVM testPatch addr 6]
          let mem2 :=
            if env.copyStatus = STATUS_SUCCESS then writeBytes mem addr testPatch
            else mem
          let ev3 := ev2 ++ [.protect addr 6 env.oldProtection, .closeHandle]
            ++ cleanupEvents
          if env.copyStatus ≠ STATUS_SUCCESS then (env.copyStatus, ev3, mem2)
          else (STATUS_SUCCESS, ev3, mem2)

def isAlloc : PEvent → Bool
  | .alloc _ _ => true
  | _ => false

def isFree : PEvent → Bool
  | .free _ => true
  | _ => false

def isProtect : PEvent → Bool
  | .protect _ _ _ => true
  | _ => false

def isCopy : PEvent → Bool
  | .copyVM _ _ _ => true
  | _ => false

theorem writeBytes_outside (bs : List Nat) (mem : Nat → Nat) (addr a : Nat)
    (h : a < addr ∨ addr + bs.length ≤ a) : writeBytes mem addr bs a = mem a := by
  induction bs generalizing mem addr with
  | nil => rfl
  | cons b t ih =>
    rw [writeBytes]
    have hne : a ≠ addr := by
      rcases h with h | h
      · omega
      · simp only [List.length_cons] at h
        omega
    rw [ih _ (addr + 1) (by simp only [List.length_cons] at h; omega)]
    simp [hne]

theorem writeBytes_inside (bs : List Nat) (mem : Nat → Nat) (addr i : Nat)
    (h : i < bs.length) : writeBytes mem addr bs (addr + i) = bs.getD i 0 := by
  induction bs generalizing mem addr i with
  | nil => simp at h
  | cons b t ih =>
    rw [writeBytes]
    cases i with
    | zero =>
      rw [writeBytes_outside t _ (addr + 1) (addr + 0) (by omega)]
      simp
    | succ j =>
      have hj : j < t.length := by simpa using h
      have harr : addr + (j + 1) = (addr + 1) + j := by omega
      rw [harr, ih _ (addr + 1) j hj]
      simp

/-! ### Claim C4 -/

/-- Environment for the lookup-failure path: the support routines are
loaded, all three pool allocations succeed, and then
`PsLookupProcessByProcessId` fails. -/
def leakEnv : PatchEnv where
  zwProtectLoaded := true
  mmCopyLoaded := true
  allocModuleName := true
  allocFunctionName := true
  allocPatch := true
  lookupOk := false
  pebOk := true
  loaderOk := true
  moduleFound := true
  dosValid := true
  ntValid := true
  exportPresent := true
  exportFound := true
  openOk := true
  protectStatus := 0
  copyStatus := 0
  oldProtection := 4
  functionAddress := 1000

/-- A concrete request: a 2-wide-char module name, a 3-char function name
and a 2-byte patch. -/
def leakReq : PatchedModule :=
  { Pid := 1234, ModuleName := [78, 84], FunctionName := [70, 111, 111],
    Patch := [0x90, 0x90] }

/-- A blank target memory image. -/
def memZero : Nat → Nat := fun _ => 0

/-- **C4** (code bug).  On the process-lookup-failure abort path,
`PatchModule` returns `STATUS_UNSUCCESSFUL` directly (line 57) without
reaching `CleanUp:`: the trace shows all three pool allocations and not a
single `ExFreePool`, leaking the module-name, function-name and patch
buffers, contrary to the claim that every abort path frees every temporary
allocation.  (No attach has happened yet on this path, so no detach is
owed.) -/
theorem C4_lookup_failure_leak :
    (PatchModule leakEnv leakReq memZero).1 = STATUS_UNSUCCESSFUL ∧
    (PatchModule leakEnv leakReq memZero).2.1
      = [.alloc .moduleName 6, .memcpyTo .moduleName 6,
         .alloc .functionName 4, .memcpyTo .functionName 4,
         .alloc .patch 2, .memcpyTo .functionName 2] ∧
    ((PatchModule leakEnv leakReq memZero).2.1.filter isAlloc).length = 3 ∧
    ((PatchModule leakEnv leakReq memZero).2.1.filter isFree).length = 0 :=
  ⟨rfl, rfl, rfl, rfl⟩

/-! ### Claim C5 -/

/-- **C5** (confirmed).  Whenever the target function is resolved (module
and export found, handle opened) and the protection change and copy
succeed, `PatchModule` changes protection on exactly 6 bytes at the
resolved function address (and restores it over the same 6 bytes), copies
exactly 6 bytes to that address, leaves every byte outside
`[functionAddress, functionAddress + 6)` untouched and overwrites exactly
the 6 bytes inside — all regardless of the caller-supplied `Patch` list,
which is universally quantified here and never constrains the sizes. -/
theorem C5_fixed_six_byte_patch (env : PatchEnv) (req : PatchedModule)
    (mem : Nat → Nat)
    (h1 : env.zwProtectLoaded = true) (h2 : env.mmCopyLoaded = true)
    (h3 : env.allocModuleName = true) (h4 : env.allocFunctionName = true)
    (h5 : env.allocPatch = true) (h6 : env.lookupOk = true)
    (h7 : env.pebOk = true) (h8 : env.loaderOk = true)
    (h9 : env.moduleFound = true) (h10 : env.dosValid = true)
    (h11 : env.ntValid = true) (h12 : env.exportPresent = true)
    (h13 : env.exportFound = true) (h14 : env.openOk = true)
    (hps : env.protectStatus = STATUS_SUCCESS)
    (hcs : env.copyStatus = STATUS_SUCCESS) :
    ((PatchModule env req mem).2.1.filter isProtect
      = [.protect env.functionAddress 6 PAGE_EXECUTE_READWRITE,
         .protect env.functionAddress 6 env.oldProtection]) ∧
    ((PatchModule env req mem).2.1.filter isCopy
      = [.copyVM testPatch env.functionAddress 6]) ∧
    (∀ a, a < env.functionAddress ∨ env.functionAddress + 6 ≤ a →
      (PatchModule env req mem).2.2 a = mem a) ∧
    (∀ i, i < 6 →
      (PatchModule env req mem).2.2 (env.functionAddress + i)
        = testPatch.getD i 0) := by
  obtain ⟨z, m, a1, a2, a3, lk, pb, ld, mf, dv, nv, ep, ef, oo, ps, cs, op, fa⟩ := env
  dsimp only at h1 h2 h3 h4 h5 h6 h7 h8 h9 h10 h11 h12 h13 h14 hps hcs
  subst h1; subst h2; subst h3; subst h4; subst h5; subst h6; subst h7; subst h8
  subst h9; subst h10; subst h11; subst h12; subst h13; subst h14
  subst hps; subst hcs
  refine ⟨rfl, rfl, ?_, ?_⟩
  · intro a ha
    exact writeBytes_outside testPatch mem fa a (by simpa [testPatch] using ha)
  · intro i hi
    exact writeBytes_inside testPatch mem fa i (by simpa [testPatch] using hi)

/-- Environment for the fully successful patch path. -/
def happyEnv : PatchEnv where
  zwProtectLoaded := true
  mmCopyLoaded := true
  allocModuleName := true
  allocFunctionName := true
  allocPatch := true
  lookupOk := true
  pebOk := true
  loaderOk := true
  moduleFound := true
  dosValid := true
  ntValid := true
  exportPresent := true
  exportFound := true
  openOk := true
  protectStatus := 0
  copyStatus := 0
  oldProtection := 4
  functionAddress := 1000

/-- Witness for `C5_fixed_six_byte_patch` at the concrete happy-path
environment: a 2-byte caller patch still produces 6-byte protection and
copy windows, the byte before the window is untouched and the first
patched byte is `0xB8`. -/
theorem C5_fixed_six_byte_patch_witness :
    ((PatchModule happyEnv leakReq memZero).2.1.filter isProtect
      = [.protect happyEnv.functionAddress 6 PAGE_EXECUTE_READWRITE,
         .protect happyEnv.functionAddress 6 happyEnv.oldProtection]) ∧
    ((PatchModule happyEnv leakReq memZero).2.1.filter isCopy
      = [.copyVM testPatch happyEnv.functionAddress 6]) ∧
    (PatchModule happyEnv leakReq memZero).2.2 999 = memZero 999 ∧
    (PatchModule happyEnv leakReq memZero).2.2 (happyEnv.functionAddress + 0)
      = testPatch.getD 0 0 := by
  have h := C5_fixed_six_byte_patch happyEnv leakReq memZero rfl rfl rfl rfl rfl
    rfl rfl rfl rfl rfl rfl rfl rfl rfl rfl rfl
  exact ⟨h.1, h.2.1, h.2.2.1 999 (by decide), h.2.2.2 0 (by decide)⟩

/-! ### Claim C6 -/

/-- **C6** (confirmed).  The 6 bytes `PatchModule` copies are the fixed
constant `0xB8 0x57 0x00 0x07 0x80 0xC3` (`testPatch`), independent of the
caller's `Patch` field: two runs differing only in `Patch` return the same
status and write the same target memory, every cross-process copy event
carries `testPatch` as its source (the staged patch buffer is never the
copy source), and no staging `memcpy` ever targets the patch buffer — when
the three allocations succeed, the third staging copy targets the
function-name buffer with the patch's length instead. -/
theorem C6_patch_bytes_independent (env : PatchEnv) (req1 req2 : PatchedModule)
    (mem : Nat → Nat) (hpid : req1.Pid = req2.Pid)
    (hmn : req1.ModuleName = req2.ModuleName)
    (hfn : req1.FunctionName = req2.FunctionName) :
    ((PatchModule env req1 mem).1 = (PatchModule env req2 mem).1) ∧
    (∀ a, (PatchModule env req1 mem).2.2 a = (PatchModule env req2 mem).2.2 a) ∧
    ((PatchModule env req1 mem).2.1.filter isCopy
      = (PatchModule env req2 mem).2.1.filter isCopy) ∧
    (∀ src dstAddr len,
      PEvent.copyVM src dstAddr len ∈ (PatchModule env req1 mem).2.1
        → src = testPatch) ∧
    (∀ n, PEvent.memcpyTo PBuf.patch n ∉ (PatchModule env req1 mem).2.1) ∧
    (env.zwProtectLoaded = true → env.mmCopyLoaded = true →
      env.allocModuleName = true → env.allocFunctionName = true →
      env.allocPatch = true →
      PEvent.memcpyTo PBuf.functionName req1.Patch.length
        ∈ (PatchModule env req1 mem).2.1) := by
  obtain ⟨z, m, a1, a2, a3, lk, pb, ld, mf, dv, nv, ep, ef, oo, ps, cs, op, fa⟩ := env
  cases z with
  | false =>
    refine ⟨rfl, fun a => rfl, rfl, ?_, ?_, ?_⟩
    · intro src d len h
      exact absurd h (List.not_mem_nil _)
    · intro n h
      exact absurd h (List.not_mem_nil _)
    · intro g _ _ _ _
      simp at g
  | true =>
  cases m with
  | false =>
    refine ⟨rfl, fun a => rfl, rfl, ?_, ?_, ?_⟩
    · intro src d len h
      exact absurd h (List.not_mem_nil _)
    · intro n h
      exact absurd h (List.not_mem_nil _)
    · intro _ g _ _ _
      simp at g
  | true =>
  cases a1 with
  | false =>
    refine ⟨rfl, fun a => rfl, rfl, ?_, ?_, ?_⟩
    · intro src d len h
      exact absurd h (List.not_mem_nil _)
    · intro n h
      exact absurd h (List.not_mem_nil _)
    · intro _ _ g _ _
      simp at g
  | true =>
  cases a2 with
  | false =>
    refine ⟨rfl, fun a => rfl, rfl, ?_, ?_, ?_⟩
    · intro src d len h
      simp [PatchModule, cleanupEvents] at h
    · intro n h
      simp [PatchModule, cleanupEvents] at h
    · intro _ _ _ g _
      simp at g
  | true =>
  cases a3 with
  | false =>
    refine ⟨rfl, fun a => rfl, rfl, ?_, ?_, ?_⟩
    · intro src d len h
      simp [PatchModule, cleanupEvents] at h
    · intro n h
      simp [PatchModule, cleanupEvents] at h
    · intro _ _ _ _ g
      simp at g
  | true =>
  cases lk with
  | false =>
    refine ⟨rfl, fun a => rfl, rfl, ?_, ?_, ?_⟩
    · intro src d len h
      simp [PatchModule, cleanupEvents] at h
    · intro n h
      simp [PatchModule, cleanupEvents] at h
    · intro _ _ _ _ _
      simp [PatchModule, cleanupEvents]
  | true =>
  cases pb with
  | false =>
    refine ⟨rfl, fun a => rfl, rfl, ?_, ?_, ?_⟩
    · intro src d len h
      simp [PatchModule, cleanupEvents] at h
    · intro n h
      simp [PatchModule, cleanupEvents] at h
    · intro _ _ _ _ _
      simp [PatchModule, cleanupEvents]
  | true =>
  cases ld with
  | false =>
    refine ⟨rfl, fun a => rfl, rfl, ?_, ?_, ?_⟩
    · intro src d len h
      simp [PatchModule, cleanupEvents] at h
    · intro n h
      simp [PatchModule, cleanupEvents] at h
    · intro _ _ _ _ _
      simp [PatchModule, cleanupEvents]
  | true =>
  cases mf with
  | false =>
    refine ⟨rfl, fun a => rfl, rfl, ?_, ?_, ?_⟩
    · intro src d len h
      simp [PatchModule, cleanupEvents] at h
    · intro n h
      simp [PatchModule, cleanupEvents] at h
    · intro _ _ _ _ _
      simp [PatchModule, cleanupEvents]
  | true =>
  cases dv with
  | false =>
    refine ⟨rfl, fun a => rfl, rfl, ?_, ?_, ?_⟩
    · intro src d len h
      simp [PatchModule, cleanupEvents] at h
    · intro n h
      simp [PatchModule, cleanupEvents] at h
    · intro _ _ _ _ _
      simp [PatchModule, cleanupEvents]
  | true =>
  cases nv with
  | false =>
    refine ⟨rfl, fun a => rfl, rfl, ?_, ?_, ?_⟩
    · intro src d len h
      simp [PatchModule, cleanupEvents] at h
    · intro n h
      simp [PatchModule, cleanupEvents] at h
    · intro _ _ _ _ _
      simp [PatchModule, cleanupEvents]
  | true =>
  cases ep with
  | false =>
    refine ⟨rfl, fun a => rfl, rfl, ?_, ?_, ?_⟩
    · intro src d len h
      simp [PatchModule, cleanupEvents] at h
    · intro n h
      simp [PatchModule, cleanupEvents] at h
    · intro _ _ _ _ _
      simp [PatchModule, cleanupEvents]
  | true =>
  cases ef with
  | false =>
    refine ⟨rfl, fun a => rfl, rfl, ?_, ?_, ?_⟩
    · intro src d len h
      simp [PatchModule, cleanupEvents] at h
    · intro n h
      simp [PatchModule, cleanupEvents] at h
    · intro _ _ _ _ _
      simp [PatchModule, cleanupEvents]
  | true =>
  cases oo with
  | false =>
    refine ⟨rfl, fun a => rfl, rfl, ?_, ?_, ?_⟩
    · intro src d len h
      simp [PatchModule, cleanupEvents] at h
    · intro n h
      simp [PatchModule, cleanupEvents] at h
    · intro _ _ _ _ _
      simp [PatchModule, cleanupEvents]
  | true =>
  by_cases hps : ps = STATUS_SUCCESS
  · subst hps
    by_cases hcs : cs = STATUS_SUCCESS
    · subst hcs
      refine ⟨rfl, fun a => rfl, rfl, ?_, ?_, ?_⟩
      · intro src d len h
        simp [PatchModule, cleanupEvents, STATUS_SUCCESS] at h
        exact h.1
      · intro n h
        simp [PatchModule, cleanupEvents, STATUS_SUCCESS] at h
      · intro _ _ _ _ _
        simp [PatchModule, cleanupEvents, STATUS_SUCCESS]
    · obtain ⟨k, rfl⟩ := Nat.exists_eq_succ_of_ne_zero hcs
      refine ⟨rfl, fun a => rfl, rfl, ?_, ?_, ?_⟩
      · intro src d len h
        simp [PatchModule, cleanupEvents, STATUS_SUCCESS] at h
        exact h.1
      · intro n h
        simp [PatchModule, cleanupEvents, STATUS_SUCCESS] at h
      · intro _ _ _ _ _
        simp [PatchModule, cleanupEvents, STATUS_SUCCESS]
  · obtain ⟨k, rfl⟩ := Nat.exists_eq_succ_of_ne_zero hps
    refine ⟨rfl, fun a => rfl, rfl, ?_, ?_, ?_⟩
    · intro src d len h
      simp [PatchModule, cleanupEvents, STATUS_SUCCESS] at h
    · intro n h
      simp [PatchModule, cleanupEvents, STATUS_SUCCESS] at h
    · intro _ _ _ _ _
      simp [PatchModule, cleanupEvents, STATUS_SUCCESS]

/-- A request agreeing with `leakReq` except in the patch bytes. -/
def leakReq' : PatchedModule :=
  { Pid := 1234, ModuleName := [78, 84], FunctionName := [70, 111, 111],
    Patch := [1, 2, 3, 4] }

/-- Witness for `C6_patch_bytes_independent`: runs on `leakReq` and
`leakReq'` (differing only in their patch bytes) in the happy-path
environment. -/
theorem C6_patch_bytes_independent_witness :
    ((PatchModule happyEnv leakReq memZero).1
      = (PatchModule happyEnv leakReq' memZero).1) ∧
    ((PatchModule happyEnv leakReq memZero).2.2 1000
      = (PatchModule happyEnv leakReq' memZero).2.2 1000) ∧
    ((PatchModule happyEnv leakReq memZero).2.1.filter isCopy
      = (PatchModule happyEnv leakReq' memZero).2.1.filter isCopy) ∧
    (PEvent.copyVM testPatch 1000 6 ∈ (PatchModule happyEnv leakReq memZero).2.1
      → testPatch = testPatch) ∧
    (PEvent.memcpyTo PBuf.patch 2 ∉ (PatchModule happyEnv leakReq memZero).2.1) ∧
    (PEvent.memcpyTo PBuf.functionName 2
      ∈ (PatchModule happyEnv leakReq memZero).2.1) := by
  have h := C6_patch_bytes_independent happyEnv leakReq leakReq' memZero rfl rfl rfl
  exact ⟨h.1, h.2.1 1000, h.2.2.1, fun hm => h.2.2.2.1 testPatch 1000 6 hm,
    h.2.2.2.2.1 2, h.2.2.2.2.2 rfl rfl rfl rfl rfl⟩

end Nidhogg
